import Mathlib

/-!
# Verification of the `@superhero/locator` service registry

A shallow embedding of the locator's resolution engine:

* the map normalizer and wildcard expander (`Loader##normalizeServiceMap`,
  `Loader##normalizeServiceConf`, `Loader##expandServiceMap`,
  `Loader##expandServiceWildcards`, `Loader##expandServiceWildcardsIterater`,
  `Loader##isInvalidFile`),
* the fixed-point iterative eager-load resolver (`Loader##iterateEagerload`,
  `Loader##resolveService`, `Loader.lazy`),
* the registry with its dependency-guarded deletion and round-based teardown
  (`Locator.locate`, `Locator.delete`, `Locator.destroy`).

JavaScript strings manipulated character-wise (split on the wildcard marker,
suffix tests, slicing) are embedded as `List Char`, so every operation is
structural and computable; registry keys and declaration fields are `String`
(a `String` is definitionally its list of characters).  External collaborators
(the module-import mechanism, the filesystem listing, the configuration store)
are opaque parameters of an environment record, exactly as the specification
scopes them out.  Asynchronous suspension points are sequentialized: within one
`destroy()` round the concurrently launched destroy invocations are independent
(their outcomes are pure lookups keyed on the service instance and the removed
names are pairwise distinct map keys), so the round's aggregate effect is the
sequential composition modelled here.
-/

namespace SuperheroLocator

/-- The structured errors thrown by the locator and loader.  Each carries the
data that the source attaches (`error.code`, and a structured `cause` where the
code aggregates causes).  Errors produced by external collaborators (failed
dynamic imports, unexpected filesystem failures) are `external` with their own
code string. -/
inductive LocError where
  | locateMissing (name : String)
  | lazyloadWrap (name : String) (cause : LocError)
  | servicePriority (name usingName : String)
  | serviceUnresolvable (name path : String)
  | invalidPath (msg : String)
  | invalidServiceMap (ty : String)
  | invalidServiceConfig (name ty : String)
  | deleteGuard (name usedBy : String)
  | destroyService (name reason : String)
  | eagerloadWrap (causes : List LocError)
  | destroyWrap (causes : List LocError)
  | unknownLocator (msg : String)
  | external (codeStr : String)

/-- The `error.code` property of each error, as assigned in the source. -/
def LocError.code : LocError → String
  | .locateMissing _ => "E_LOCATOR_LOCATE"
  | .lazyloadWrap _ _ => "E_LOCATOR_LAZYLOAD"
  | .servicePriority _ _ => "E_LOCATOR_SERVICE_PRIORITY"
  | .serviceUnresolvable _ _ => "E_LOCATOR_SERVICE_UNRESOLVABLE"
  | .invalidPath _ => "E_LOCATOR_INVALID_PATH"
  | .invalidServiceMap _ => "E_LOCATOR_INVALID_SERVICE_MAP"
  | .invalidServiceConfig _ _ => "E_LOCATOR_INVALID_SERVICE_CONFIG"
  | .deleteGuard _ _ => "E_LOCATOR_DELETE"
  | .destroyService _ _ => "E_LOCATOR_DESTROY_SERVICE"
  | .eagerloadWrap _ => "E_LOCATOR_EAGERLOAD"
  | .destroyWrap _ => "E_LOCATOR_DESTROY"
  | .unknownLocator _ => "E_LOCATOR_UNKNOWN_LOCATOR"
  | .external c => c

/-- A canonical service declaration `{ name, path, uses }` as produced by the
normalizer and the wildcard expander and consumed by the resolver. -/
structure Svc where
  name : String
  path : String
  uses : List String
deriving DecidableEq, Repr

/-- A directory entry as returned by `fs.readdir(dirpath, { withFileTypes })`:
its name together with whether `isFile()` or `isDirectory()` holds (anything
else, e.g. a symlink, is `other` and is skipped by the walk). -/
inductive DirentKind where
  | file
  | dir
  | other
deriving DecidableEq, Repr

/-- A filesystem directory entry. -/
structure Dirent where
  name : List Char
  kind : DirentKind
deriving DecidableEq, Repr

/-- Result of the raw `fs.readdir` collaborator: the listing, a typed
not-found / not-a-directory failure, or some other failure that
`Loader##readDirentsByPath` rethrows unchanged. -/
inductive FsResult where
  | ok (dirents : List Dirent)
  | enoent
  | enotdir
  | failOther (e : LocError)

/-- Outcome of the module resolution protocol for one path
(`pathResolver.resolve` with the file/directory callbacks, §4.4): a truthy
resolved instance, a falsy result (the caller then raises
`E_LOCATOR_SERVICE_UNRESOLVABLE`), or a thrown error. -/
inductive ResolveOutcome (α : Type) where
  | ok (a : α)
  | falsy
  | err (e : LocError)

/-- The external collaborators of the core, bundled: module resolution,
relative-path normalization (configuration store override falling back to the
base path), the per-name destroy-enable configuration lookup, the shape of a
resolved instance (does it expose a callable `destroy`?), the outcome of
invoking that `destroy` (`none` = fulfilled, `some reason` = it threw), and
the directory-listing collaborator. -/
structure Env (α : Type) where
  resolve : String → ResolveOutcome α
  relResolve : String → String → String
  destroyEnabled : String → Bool
  hasDestroyFn : α → Bool
  destroyFails : α → Option String
  fs : List Char → FsResult

/-! ## Character-level string operations

`String.prototype.split` with the one-character separator `'*'`, `endsWith`,
and `slice(0, n)` on ASCII strings, embedded structurally on `List Char`. -/

/-- JavaScript `string.split(sep)` for a single-character separator: always
returns a non-empty list of (possibly empty) segments. -/
def splitChar (sep : Char) : List Char → List (List Char)
  | [] => [[]]
  | c :: cs =>
    if c = sep then [] :: splitChar sep cs
    else
      match splitChar sep cs with
      | [] => [[c]]
      | h :: t => (c :: h) :: t

/-- `Loader##isInvalidFile(filename, expectation)`: a filename is rejected when
a required trailing literal (the pattern text after the last wildcard) is
present but the filename does not end with it; when the filename has none of
the recognized source-module suffixes; or when it ends with a recognized
non-production marker combined with a source suffix (`.test.js`, `.spec.mjs`,
...).  The source returns `true`/`undefined`; both rejection and fall-through
are a `Bool` here. -/
def isInvalidFile (filename expectation : List Char) : Bool :=
  if expectation ≠ [] ∧ ¬ expectation.isSuffixOf filename then
    true
  else if ¬ (".js".data.isSuffixOf filename) ∧ ¬ (".cjs".data.isSuffixOf filename)
      ∧ ¬ (".mjs".data.isSuffixOf filename) then
    true
  else
    ["js", "mjs", "cjs"].any fun fileEnding =>
      ["test", "spec", "unit", "int", "e2e", "example", "demo"].any fun fileType =>
        (("." ++ fileType ++ "." ++ fileEnding).data).isSuffixOf filename

/-- `Loader##readDirentsByPath`: wraps the raw listing collaborator, mapping the
typed `ENOENT` / `ENOTDIR` failures to `E_LOCATOR_INVALID_PATH` errors with the
underlying reason preserved, and rethrowing anything else. -/
def readDirentsByPath (env : Env α) (dirpath : List Char) : Except LocError (List Dirent) :=
  match env.fs dirpath with
  | .ok ds => .ok ds
  | .enoent => .error (.invalidPath "ENOENT")
  | .enotdir => .error (.invalidPath "ENOTDIR")
  | .failOther e => .error e

/-- The body of the `for(const dirent of dirents)` loop of
`Loader##expandServiceWildcardsIterater`, processing each directory entry in
order.  `recur` is the recursive walk one depth deeper (the remaining segment
lists are fixed at the call site), `isLastFileDepth` is the source's
`depth === splitPath.length - 1`, and `nextName`/`nextPath` are
`splitName[depth]`/`splitPath[depth]`.  A file entry at the final depth is
accepted when `isInvalidFile` passes: the matched wildcard portion of the
filename (the trailing literal stripped) is spliced into the accumulated name.
A directory entry is accepted when the next path segment begins with the path
separator.  Every other entry is skipped. -/
def expandDirents (recur : List Char → List Char → Except LocError (List Svc))
    (isLastFileDepth : Bool) (nextName nextPath pn pp : List Char) :
    List Dirent → Except LocError (List Svc)
  | [] => .ok []
  | d :: ds => do
    let here ←
      if d.kind = .file ∧ isLastFileDepth = true then
        if isInvalidFile d.name nextPath then
          pure []
        else
          recur (pn ++ d.name.take (d.name.length - nextPath.length) ++ nextName)
                (pp ++ d.name)
      else if d.kind = .dir then
        if nextPath.head? = some '/' then
          recur (pn ++ d.name ++ nextName) (pp ++ d.name ++ nextPath)
        else
          pure []
      else
        pure []
    let rest ← expandDirents recur isLastFileDepth nextName nextPath pn pp ds
    pure (here ++ rest)

/-- `Loader##expandServiceWildcardsIterater`: the depth-first walk.  Instead of
the source's `depth` counter into the fixed segment arrays, the remaining
segments (`splitName.slice(depth)`, `splitPath.slice(depth)`) are passed; at
the final depth (`depth === splitName.length`, i.e. no segment remains) the
accumulated name and path form one terminal concrete declaration with the
original `uses` attached unchanged. -/
def expandIter (env : Env α) (uses : List String) :
    (restName restPath : List (List Char)) → (pn pp : List Char) →
    Except LocError (List Svc)
  | [], _, pn, pp => .ok [⟨⟨pn⟩, ⟨pp⟩, uses⟩]
  | nextName :: restName, restPath0, pn, pp => do
    let dirents ← readDirentsByPath env pp
    expandDirents (expandIter env uses restName restPath0.tail)
      (restPath0.length == 1) nextName (restPath0.headD []) pn pp dirents

/-- `Loader##expandServiceWildcards`: split name and path on the wildcard
marker; if the counts differ fail with `E_LOCATOR_INVALID_PATH` (a hard
precondition checked before any filesystem access); otherwise walk, and if the
walk produced nothing fail with `E_LOCATOR_INVALID_PATH` ("no matching service
found").  The source appends into a shared accumulator and compares lengths;
returning the produced sublist is equivalent. -/
def expandServiceWildcards (env : Env α) (svc : Svc) : Except LocError (List Svc) :=
  let splitName := splitChar '*' svc.name.data
  let splitPath := splitChar '*' svc.path.data
  if splitName.length ≠ splitPath.length then
    .error (.invalidPath "mismatched wildcard count")
  else
    match splitName, splitPath with
    | n0 :: nrest, p0 :: prest => do
      let res ← expandIter env svc.uses nrest prest n0 p0
      if res.isEmpty then
        .error (.invalidPath "no matching service found")
      else
        .ok res
    | _, _ =>
      -- unreachable: `splitChar` always returns at least one segment
      .error (.invalidPath "no matching service found")

/-! ## Map normalization -/

/-- A per-name service configuration value, as JavaScript sees it: the
`Object.prototype.toString` tag distinguishes the cases of
`Loader##normalizeServiceConf`, and falsy values (`false`, `null`, `undefined`,
`0`, the empty string) are dropped by `Loader##expandServiceMap` before
normalization. -/
inductive ConfVal where
  | bool (b : Bool)
  | str (s : String)
  | arr (uses : List String)
  | obj (path : Option String) (uses : Option (List String))
  | nullv
  | undef
  | num (n : Int)
deriving DecidableEq

/-- JavaScript truthiness of a configuration value. -/
def ConfVal.truthy : ConfVal → Bool
  | .bool b => b
  | .str s => ¬ s.isEmpty
  | .arr _ => true
  | .obj _ _ => true
  | .nullv => false
  | .undef => false
  | .num n => n ≠ 0

/-- The `Object.prototype.toString` tag of a configuration value. -/
def ConfVal.tyTag : ConfVal → String
  | .bool _ => "[object Boolean]"
  | .str _ => "[object String]"
  | .arr _ => "[object Array]"
  | .obj _ _ => "[object Object]"
  | .nullv => "[object Null]"
  | .undef => "[object Undefined]"
  | .num _ => "[object Number]"

/-- `Loader##normalizeServiceConf`: a boolean means "path equals name"; a
string is the path; an array means "path equals name, uses = the array"; an
object supplies `path` (default: the name) and `uses` (default: empty); any
other type fails with `E_LOCATOR_INVALID_SERVICE_CONFIG`. -/
def normalizeServiceConf (serviceName : String) (serviceConf : ConfVal) :
    Except LocError Svc :=
  match serviceConf with
  | .bool _ => .ok ⟨serviceName, serviceName, []⟩
  | .str s => .ok ⟨serviceName, s, []⟩
  | .arr uses => .ok ⟨serviceName, serviceName, uses⟩
  | .obj path uses => .ok ⟨serviceName, path.getD serviceName, uses.getD []⟩
  | other => .error (.invalidServiceConfig serviceName other.tyTag)

/-- `Loader##normalizeServicePath`: a path starting with `.` is resolved
through the configuration store override falling back to the base directory —
an external collaborator, kept opaque as `env.relResolve`; any other path is
returned unchanged. -/
def normalizeServicePath (env : Env α) (serviceName servicePath : String) : String :=
  if servicePath.data.head? = some '.' then
    env.relResolve serviceName servicePath
  else
    servicePath

/-- `Loader##expandServiceMap`: walk the name → configuration entries in
order; skip falsy configurations entirely; normalize the rest, normalize the
path, and expand wildcards, concatenating all produced concrete
declarations. -/
def expandServiceMap (env : Env α) : List (String × ConfVal) → Except LocError (List Svc)
  | [] => .ok []
  | (serviceName, serviceConf) :: rest =>
    if serviceConf.truthy then
      match normalizeServiceConf serviceName serviceConf with
      | .error e => .error e
      | .ok svc0 =>
        match expandServiceWildcards env
            { svc0 with path := normalizeServicePath env svc0.name svc0.path } with
        | .error e => .error e
        | .ok produced =>
          match expandServiceMap env rest with
          | .error e => .error e
          | .ok restProduced => .ok (produced ++ restProduced)
    else
      expandServiceMap env rest

/-- The free-form input of `eagerload`, distinguished by its
`Object.prototype.toString` tag. -/
inductive MapInput where
  | str (s : String)
  | arr (l : List String)
  | obj (entries : List (String × ConfVal))
  | other (ty : String)

/-- `Loader##normalizeServiceMap`: an object is returned unchanged; an array
is folded into `{ element: true }` entries; a string becomes the singleton
`{ input: true }`; anything else fails with `E_LOCATOR_INVALID_SERVICE_MAP`.
(For an array with duplicate elements `Object.assign` keeps the first key
position with the same value `true`, so the element-wise map is faithful.) -/
def normalizeServiceMap : MapInput → Except LocError (List (String × ConfVal))
  | .obj entries => .ok entries
  | .arr l => .ok (l.map fun s => (s, ConfVal.bool true))
  | .str s => .ok [(s, ConfVal.bool true)]
  | .other ty => .error (.invalidServiceMap ty)

/-! ## Registry state and lifecycle operations

The `Locator` is a `Map` of name → instance together with the private
priority `Map` of name → declared `uses`.  JavaScript `Map`s preserve
insertion order and have unique keys; they are embedded as association lists
where `set` replaces in place or appends, and `delete` removes the key's
entry. -/

/-- The state owned by one locator instance: the registry (name → resolved
instance, insertion-ordered) and the priority relation (name → declared
`uses`, recorded only for non-empty `uses`). -/
structure LocState (α : Type) where
  registry : List (String × α)
  priority : List (String × List String)
deriving DecidableEq

/-- The empty locator state. -/
def emptyState : LocState α := ⟨[], []⟩

/-- The registry entry for a name, if present (`Map.prototype.get`). -/
def registryFind (s : LocState α) (name : String) : Option (String × α) :=
  s.registry.find? fun e => e.1 = name

/-- `Map.prototype.has` on the registry. -/
def registryHas (s : LocState α) (name : String) : Bool :=
  (registryFind s name).isSome

/-- `Map.prototype.get` on the registry. -/
def registryGet (s : LocState α) (name : String) : Option α :=
  (registryFind s name).map Prod.snd

/-- `Map.prototype.set` on the registry: replace in place when the key exists,
append otherwise. -/
def registrySet (s : LocState α) (name : String) (a : α) : LocState α :=
  if registryHas s name then
    { s with registry := s.registry.map fun e => if e.1 = name then (name, a) else e }
  else
    { s with registry := s.registry ++ [(name, a)] }

/-- `Map.prototype.set` on the priority relation. -/
def prioritySet (s : LocState α) (name : String) (uses : List String) : LocState α :=
  if s.priority.any (fun p => p.1 = name) then
    { s with priority := s.priority.map fun p => if p.1 = name then (name, uses) else p }
  else
    { s with priority := s.priority ++ [(name, uses)] }

/-- `Map.prototype.delete` on the priority relation. -/
def priorityErase (s : LocState α) (name : String) : LocState α :=
  { s with priority := s.priority.filter fun p => ¬ (p.1 = name) }

/-- `Locator.locate(name)`: return the registered instance, or throw
`E_LOCATOR_LOCATE` when the name is absent.  A pure lookup: no state is read
back mutated, matching the source which only calls `has` and `get`. -/
def locate (s : LocState α) (name : String) : Except LocError α :=
  match registryFind s name with
  | some e => .ok e.2
  | none => .error (.locateMissing name)

/-- `Locator.delete(name)`: scan every priority entry; if any lists `name` in
its `uses`, throw `E_LOCATOR_DELETE` (before mutating anything); otherwise
remove the name from the priority relation and from the registry. -/
def locatorDelete (s : LocState α) (name : String) : Except LocError (LocState α) :=
  match s.priority.find? (fun p => p.2.contains name) with
  | some p => .error (.deleteGuard name p.1)
  | none =>
    .ok ⟨s.registry.filter (fun e => ¬ (e.1 = name)),
         s.priority.filter (fun p => ¬ (p.1 = name))⟩

/-- `Locator.delete` as a state transformer: the pair of the post-state (the
pre-state when the dependency-safety guard throws) and the thrown error, if
any. -/
def deleteOp (s : LocState α) (name : String) : LocState α × Option LocError :=
  match locatorDelete s name with
  | .ok s2 => (s2, none)
  | .error e => (s, some e)

/-- `Loader##resolveService({ name, path })`: resolve the path through the
module resolution protocol; on a truthy instance register it under the name,
on a falsy result throw `E_LOCATOR_SERVICE_UNRESOLVABLE`, and let any thrown
resolution error propagate. -/
def resolveService (env : Env α) (s : LocState α) (name path : String) :
    Except LocError (LocState α) :=
  match env.resolve path with
  | .ok a => .ok (registrySet s name a)
  | .falsy => .error (.serviceUnresolvable name path)
  | .err e => .error e

/-- `Loader.lazy(serviceName, servicePath)`: when the name is absent, resolve
`servicePath ?? serviceName` exactly once, wrapping any failure as
`E_LOCATOR_LAZYLOAD` with the underlying cause; return the registry's value
for the name either way. -/
def lazy (env : Env α) (s : LocState α) (serviceName : String)
    (servicePath : Option String) : Except LocError (LocState α × Option α) :=
  if registryHas s serviceName then
    .ok (s, registryGet s serviceName)
  else
    match resolveService env s serviceName (servicePath.getD serviceName) with
    | .ok s2 => .ok (s2, registryGet s2 serviceName)
    | .error reason => .error (.lazyloadWrap serviceName reason)

/-! ## The dependency-ordered resolver -/

/-- The `try` block of one declaration inside `Loader##iterateEagerload`:
check every declared `uses` name, throwing `E_LOCATOR_SERVICE_PRIORITY` for
the first one not yet registered; otherwise resolve the service and, when
`uses` is non-empty, record the priority entry. -/
def attemptSvc (env : Env α) (s : LocState α) (c : Svc) : Except LocError (LocState α) :=
  match c.uses.find? (fun u => ¬ registryHas s u) with
  | some u => .error (.servicePriority c.name u)
  | none =>
    match resolveService env s c.name c.path with
    | .error e => .error e
    | .ok s2 =>
      if c.uses.length ≠ 0 then
        .ok (prioritySet s2 c.name c.uses)
      else
        .ok s2

/-- The result of one pass of `Loader##iterateEagerload` over a declaration
batch: the state after the pass, the declarations re-queued for the next pass,
the per-declaration errors collected this pass, and — when a resolution threw
`E_LOCATOR_SERVICE_UNRESOLVABLE` — the fatal error that aborts the whole call
at that point. -/
structure PassResult (α : Type) where
  state : LocState α
  queued : List Svc
  errs : List LocError
  fatal : Option LocError

/-- The `for(const { name, path, uses } of serviceConfigs)` loop of one pass:
skip declarations already registered; attempt the rest; rethrow
`E_LOCATOR_SERVICE_UNRESOLVABLE` immediately (aborting the loop); re-queue any
other failure together with its error. -/
def eagerPass (env : Env α) :
    List Svc → LocState α → List Svc → List LocError → PassResult α
  | [], s, queued, errs => ⟨s, queued, errs, none⟩
  | c :: rest, s, queued, errs =>
    if registryHas s c.name then
      eagerPass env rest s queued errs
    else
      match attemptSvc env s c with
      | .ok s2 => eagerPass env rest s2 queued errs
      | .error reason =>
        if reason.code = "E_LOCATOR_SERVICE_UNRESOLVABLE" then
          ⟨s, queued, errs, some reason⟩
        else
          eagerPass env rest s (queued ++ [c]) (errs ++ [reason])

/-- The body of `Loader##iterateEagerload(serviceConfigs, attempt)` after the
pass, in source order: if every declaration of the pass failed, throw
`E_LOCATOR_EAGERLOAD` carrying all collected errors; if the attempt counter
reached the 1000 ceiling, throw the same; if declarations remain queued,
recurse (`next`) on the queued subset with the incremented attempt counter;
otherwise succeed.  A fatal `E_LOCATOR_SERVICE_UNRESOLVABLE` from the pass
propagates unchanged.  The returned pair is the state at return or throw
together with the thrown error, if any. -/
def iterStep (env : Env α)
    (next : List Svc → LocState α → Nat → LocState α × Option LocError)
    (configs : List Svc) (s : LocState α) (attempt : Nat) :
    LocState α × Option LocError :=
  let r := eagerPass env configs s [] []
  match r.fatal with
  | some e => (r.state, some e)
  | none =>
    if r.errs.length ≠ 0 ∧ r.errs.length = configs.length then
      (r.state, some (.eagerloadWrap r.errs))
    else if attempt ≥ 1000 then
      (r.state, some (.eagerloadWrap r.errs))
    else if r.queued.length ≠ 0 then
      next r.queued r.state (attempt + 1)
    else
      (r.state, none)

/-- `Loader##iterateEagerload` with the recursion depth made structural: the
source recurses with `attempt + 1` and only while `attempt < 1000`, so fuel
`1001 - attempt` mirrors it exactly (the fuel-0 clause is unreachable for
every attempt value the source can produce). -/
def iterAux (env : Env α) : Nat → List Svc → LocState α → Nat → LocState α × Option LocError
  | 0, _, s, _ => (s, some (.eagerloadWrap []))
  | fuel + 1, configs, s, attempt => iterStep env (iterAux env fuel) configs s attempt

/-- `Loader##iterateEagerload` entered at a given attempt counter. -/
def iterateEagerload (env : Env α) (configs : List Svc) (s : LocState α)
    (attempt : Nat) : LocState α × Option LocError :=
  iterAux env (1001 - attempt) configs s attempt

/-- `Loader.eager(serviceMap)`: normalize the free-form input, expand the full
service map (all expansion happens before any resolution), then run the
iterative resolver starting at attempt 1.  The returned pair is the state at
return or throw (unchanged whenever normalization or expansion throws)
together with the thrown error, if any. -/
def eager (env : Env α) (s : LocState α) (input : MapInput) :
    LocState α × Option LocError :=
  match normalizeServiceMap input with
  | .error e => (s, some e)
  | .ok entries =>
    match expandServiceMap env entries with
    | .error e => (s, some e)
    | .ok configs => iterateEagerload env configs s 1

/-! ## The teardown engine

`Locator.destroy()` loops while the registry is non-empty.  Each round
snapshots the entries, flattens every recorded `uses` list, and filters out
the names that are still depended upon; each remaining candidate is removed
from both maps (via the guarded `Locator.delete` plus the redundant private
priority delete), invoking its `destroy` operation first when the per-name
configuration allows it and the instance exposes one, and collecting an
`E_LOCATOR_DESTROY_SERVICE` error when that invocation throws.  The round's
destroy invocations are launched concurrently and jointly awaited in the
source; their outcomes here are pure per-instance lookups and the removed
names are distinct keys, so the sequential composition below has the same
aggregate effect.  After the registry is drained, a non-empty collection of
failures is wrapped in one final `E_LOCATOR_DESTROY` error. -/

/-- What one destroy round did: which services' `destroy` operations were
invoked, and which names were removed from the registry. -/
structure RoundLog where
  invoked : List String
  removed : List String

/-- The outcome of one destroy round: the post-state, the log, the
`E_LOCATOR_DESTROY_SERVICE` errors collected, and — should the guarded
delete itself throw, which the invariants rule out — the crash. -/
structure RoundOut (α : Type) where
  state : LocState α
  invoked : List String
  removed : List String
  errs : List LocError
  crash : Option LocError

/-- The per-candidate loop of one destroy round.  Every branch removes the
candidate through `Locator.delete` followed by the redundant private priority
delete; the middle branch (destroy enabled, instance exposes a `destroy`
operation) also invokes it and records an `E_LOCATOR_DESTROY_SERVICE` error
when it throws. -/
def destroyRoundGo (env : Env α) :
    List (String × α) → LocState α → List String → List String → List LocError → RoundOut α
  | [], s, inv, rem, errs => ⟨s, inv, rem, errs, none⟩
  | (name, svc) :: rest, s, inv, rem, errs =>
    match locatorDelete s name with
    | .error e => ⟨s, inv, rem, errs, some e⟩
    | .ok s1 =>
      let s2 := priorityErase s1 name
      if env.destroyEnabled name = false then
        destroyRoundGo env rest s2 inv (rem ++ [name]) errs
      else if env.hasDestroyFn svc then
        destroyRoundGo env rest s2 (inv ++ [name]) (rem ++ [name])
          (errs ++ match env.destroyFails svc with
                   | some reason => [.destroyService name reason]
                   | none => [])
      else
        destroyRoundGo env rest s2 inv (rem ++ [name]) errs

/-- One round of `Locator.destroy()`: compute the names still appearing in
some recorded `uses` list, exclude them from this round's candidates, and
process every remaining entry. -/
def destroyRound (env : Env α) (s : LocState α) : RoundOut α :=
  let priorityFlat := (s.priority.map Prod.snd).flatten
  let filtered := s.registry.filter fun e => ¬ priorityFlat.contains e.1
  destroyRoundGo env filtered s [] [] []

/-- How a bounded run of the destroy loop ended: the registry was drained, the
fuel ran out with the registry still non-empty (modelling the source's
unbounded `while` spinning), or a guarded delete crashed. -/
inductive DestroyProgress where
  | drained
  | stuck
  | crashed (e : LocError)

/-- A bounded run of the destroy loop: final state, the per-round logs in
order, all collected `E_LOCATOR_DESTROY_SERVICE` errors, and how it ended. -/
structure DestroyRun (α : Type) where
  state : LocState α
  logs : List RoundLog
  rejected : List LocError
  progress : DestroyProgress

/-- One iteration of the `while(this.size)` loop of `Locator.destroy()`: stop
when the registry is empty, otherwise run one round and continue (`next`) from
its post-state, prepending its log and collected errors. -/
def destroyStep (env : Env α) (next : LocState α → DestroyRun α) (s : LocState α) :
    DestroyRun α :=
  if s.registry.isEmpty then
    ⟨s, [], [], .drained⟩
  else
    let r := destroyRound env s
    match r.crash with
    | some e => ⟨r.state, [⟨r.invoked, r.removed⟩], r.errs, .crashed e⟩
    | none =>
      let rest := next r.state
      ⟨rest.state, ⟨r.invoked, r.removed⟩ :: rest.logs, r.errs ++ rest.rejected, rest.progress⟩

/-- The `while(this.size)` loop of `Locator.destroy()`, bounded by fuel.  One
round per iteration; the collected errors accumulate across rounds. -/
def destroyRun (env : Env α) : Nat → LocState α → DestroyRun α
  | 0, s => ⟨s, [], [], if s.registry.isEmpty then .drained else .stuck⟩
  | fuel + 1, s => destroyStep env (destroyRun env fuel) s

/-- The result of a `Locator.destroy()` call: success, the final aggregated
`E_LOCATOR_DESTROY` throw, divergence (fuel exhausted), or a crash. -/
inductive DestroyOutcome (α : Type) where
  | ok (s : LocState α)
  | threw (e : LocError) (s : LocState α)
  | diverged (s : LocState α)
  | crashed (e : LocError) (s : LocState α)

/-- `Locator.destroy()`: after the registry is drained, throw
`E_LOCATOR_DESTROY` carrying the full collected list of per-service failures
when there are any; otherwise succeed. -/
def destroyCall (env : Env α) (fuel : Nat) (s : LocState α) : DestroyOutcome α :=
  let run := destroyRun env fuel s
  match run.progress with
  | .drained =>
    if run.rejected.isEmpty then .ok run.state else .threw (.destroyWrap run.rejected) run.state
  | .stuck => .diverged run.state
  | .crashed e => .crashed e run.state

/-! ## The public operations as a state machine

For the reachability invariants, the caller-facing surface is a list of
operations applied from the empty locator.  Each operation maps the pre-state
to the post-state, which on a throw is the state at the throw point (an
aborted `eagerload` keeps its partial registrations, exactly as the source
does).  `eagerload` is entered with an arbitrary already-expanded declaration
batch: expansion itself never touches the registry, and every possible
expansion output is some list of concrete declarations, so this covers every
`eagerload` call. -/

/-- One caller-facing operation. -/
inductive Op where
  | locateOp (name : String)
  | lazyloadOp (name : String) (path : Option String)
  | eagerloadOp (configs : List Svc)
  | deleteOp (name : String)
  | destroyOp (fuel : Nat)

/-- Apply one public operation to the locator state. -/
def applyOp (env : Env α) (s : LocState α) : Op → LocState α
  | .locateOp _ => s
  | .lazyloadOp name path =>
    match lazy env s name path with
    | .ok (s2, _) => s2
    | .error _ => s
  | .eagerloadOp configs => (iterateEagerload env configs s 1).1
  | .deleteOp name => (deleteOp s name).1
  | .destroyOp fuel => (destroyRun env fuel s).state

/-- Run a list of public operations from a state. -/
def runOps (env : Env α) : List Op → LocState α → LocState α
  | [], s => s
  | op :: ops, s => runOps env ops (applyOp env s op)

/-! ## Basic registry lemmas -/

theorem registryFind_eq_none (s : LocState α) (name : String)
    (h : registryHas s name = false) : registryFind s name = none := by
  unfold registryHas at h
  cases hx : registryFind s name with
  | none => rfl
  | some e => rw [hx] at h; simp at h

theorem registryFind_set_self (s : LocState α) (name : String) (a : α)
    (h : registryHas s name = false) :
    registryFind (registrySet s name a) name = some (name, a) := by
  have hf := registryFind_eq_none s name h
  unfold registryFind at hf ⊢
  unfold registrySet
  rw [if_neg (by simp [h])]
  simp only [List.find?_append, hf]
  simp

theorem registryHas_set_self (s : LocState α) (name : String) (a : α)
    (h : registryHas s name = false) :
    registryHas (registrySet s name a) name = true := by
  unfold registryHas
  rw [registryFind_set_self s name a h]
  rfl

/-- A shared trivial environment over `Nat` instances, used by concrete
witnesses. -/
def trivEnv : Env Nat :=
  ⟨fun _ => .falsy, fun _ p => p, fun _ => true, fun _ => false, fun _ => none,
   fun _ => .enoent⟩

/-! ## Claim C8: locate on an absent name, lazyload caching -/

/-- C8: for a name absent from the registry, `locate` throws
`E_LOCATOR_LOCATE` (a pure lookup, no state change); after a successful
`lazyload` of that name, every subsequent `locate` returns the identical
registered instance and every subsequent `lazyload` — under any environment
and any path, hence without resolving again — returns the identical instance
and leaves the state untouched. -/
theorem locate_fails_then_lazyload_caches (env : Env α) (s : LocState α)
    (name : String) (h : registryHas s name = false) :
    locate s name = .error (.locateMissing name)
    ∧ (LocError.locateMissing name).code = "E_LOCATOR_LOCATE"
    ∧ ∀ path s2 r, lazy env s name path = .ok (s2, r) →
        ∃ a, r = some a ∧ locate s2 name = .ok a
          ∧ ∀ (env2 : Env α) (anyPath : Option String),
              lazy env2 s2 name anyPath = .ok (s2, some a) := by
  have hf := registryFind_eq_none s name h
  refine ⟨by unfold locate; rw [hf], rfl, ?_⟩
  intro path s2 r hlz
  unfold lazy at hlz
  rw [if_neg (by simp [h])] at hlz
  unfold resolveService at hlz
  cases hres : env.resolve (path.getD name) with
  | ok a =>
    rw [hres] at hlz
    simp only [Except.ok.injEq, Prod.mk.injEq] at hlz
    obtain ⟨hs2, hr⟩ := hlz
    subst hs2
    have hfind := registryFind_set_self s name a h
    refine ⟨a, ?_, ?_, ?_⟩
    · rw [← hr]; unfold registryGet; rw [hfind]; rfl
    · unfold locate; rw [hfind]
    · intro env2 anyPath
      unfold lazy
      rw [if_pos (by unfold registryHas; rw [hfind]; rfl)]
      unfold registryGet
      rw [hfind]
      rfl
  | falsy => rw [hres] at hlz; simp at hlz
  | err e => rw [hres] at hlz; simp at hlz

/-- The environment used by the C8 witness: resolving the path `px` yields
the instance `7`. -/
def resolveEnvW : Env Nat :=
  ⟨fun p => if p = "px" then .ok 7 else .falsy, fun _ p => p, fun _ => true,
   fun _ => false, fun _ => none, fun _ => .enoent⟩

theorem locate_fails_then_lazyload_caches_witness :
    registryHas (emptyState : LocState Nat) "x" = false
    ∧ locate (emptyState : LocState Nat) "x" = .error (.locateMissing "x")
    ∧ ∃ a, (some 7 : Option Nat) = some a
        ∧ locate (⟨[("x", 7)], []⟩ : LocState Nat) "x" = .ok a
        ∧ ∀ (env2 : Env Nat) (anyPath : Option String),
            lazy env2 (⟨[("x", 7)], []⟩ : LocState Nat) "x" anyPath
              = .ok (⟨[("x", 7)], []⟩, some a) := by
  have h := locate_fails_then_lazyload_caches resolveEnvW (emptyState : LocState Nat) "x" rfl
  exact ⟨rfl, h.1, h.2.2 (some "px") ⟨[("x", 7)], []⟩ (some 7) rfl⟩

/-! ## Claim C5: the deletion dependency-safety guard -/

/-- C5: `delete(name)` throws `E_LOCATOR_DELETE` and leaves the state
untouched when `name` appears in the `uses` list of some recorded priority
entry; otherwise it removes the name from both the registry and the priority
relation.  In particular a name is never removed from the registry while
another entry's recorded `uses` lists it. -/
theorem delete_dependency_guard (s : LocState α) (name : String) :
    ((∃ p ∈ s.priority, name ∈ p.2) →
      ∃ e, deleteOp s name = (s, some e) ∧ e.code = "E_LOCATOR_DELETE")
    ∧ ((∀ p ∈ s.priority, name ∉ p.2) →
      deleteOp s name =
        (⟨s.registry.filter (fun e => ¬ (e.1 = name)),
          s.priority.filter (fun p => ¬ (p.1 = name))⟩, none)) := by
  constructor
  · rintro ⟨p, hp, hn⟩
    unfold deleteOp locatorDelete
    cases hfind : s.priority.find? (fun q => q.2.contains name) with
    | none =>
      exfalso
      have hq := List.find?_eq_none.mp hfind p hp
      simp only [List.contains, List.elem_iff] at hq
      exact hq hn
    | some q => exact ⟨_, rfl, rfl⟩
  · intro hnone
    unfold deleteOp locatorDelete
    rw [List.find?_eq_none.mpr (fun q hq => by
      simp only [List.contains, List.elem_iff]
      exact hnone q hq)]

/-- The concrete state used by the C5 witness: `b` is registered with a
recorded dependency on `a`. -/
def deleteWitnessState : LocState Nat := ⟨[("a", 1), ("b", 2)], [("b", ["a"])]⟩

theorem delete_dependency_guard_witness :
    (∃ p ∈ deleteWitnessState.priority, "a" ∈ p.2)
    ∧ (∃ e, deleteOp deleteWitnessState "a" = (deleteWitnessState, some e)
        ∧ e.code = "E_LOCATOR_DELETE")
    ∧ (∀ p ∈ deleteWitnessState.priority, "b" ∉ p.2)
    ∧ deleteOp deleteWitnessState "b" = (⟨[("a", 1)], []⟩, none) := by
  refine ⟨⟨("b", ["a"]), by simp [deleteWitnessState], by simp⟩, ?_, ?_, ?_⟩
  · exact (delete_dependency_guard deleteWitnessState "a").1
      ⟨("b", ["a"]), by simp [deleteWitnessState], by simp⟩
  · intro p hp
    simp [deleteWitnessState] at hp
    simp [hp]
  · exact (delete_dependency_guard deleteWitnessState "b").2 (by
      intro p hp
      simp [deleteWitnessState] at hp
      simp [hp])

/-! ## Claim C10: falsy configuration values disable a declaration -/

theorem expandServiceMap_drop_falsy (env : Env α) (name : String) (conf : ConfVal)
    (h : conf.truthy = false) :
    ∀ pre post,
      expandServiceMap env (pre ++ (name, conf) :: post) = expandServiceMap env (pre ++ post)
  | [], post => by simp [expandServiceMap, h]
  | (n2, c2) :: pre, post => by
    simp only [List.cons_append, expandServiceMap, List.append_eq]
    rw [expandServiceMap_drop_falsy env name conf h pre post]

/-- C10: an entry whose configuration value is falsy (`false`, `null`, `0`,
the empty string) is dropped before per-entry normalization: expanding a map
with the entry equals expanding the map without it — no declaration is
produced, no `E_LOCATOR_INVALID_SERVICE_CONFIG` is raised, and the value is
not treated as "path equals name". -/
theorem eagerload_falsy_conf_disables (env : Env α) (pre post : List (String × ConfVal))
    (name : String) (conf : ConfVal) (h : conf.truthy = false) :
    expandServiceMap env (pre ++ (name, conf) :: post) = expandServiceMap env (pre ++ post)
    ∧ expandServiceMap env [(name, conf)] = .ok []
    ∧ ConfVal.truthy (.bool false) = false
    ∧ ConfVal.truthy .nullv = false
    ∧ ConfVal.truthy (.num 0) = false
    ∧ ConfVal.truthy (.str "") = false := by
  refine ⟨expandServiceMap_drop_falsy env name conf h pre post, ?_, rfl, rfl, by decide, rfl⟩
  simp [expandServiceMap, h]

theorem eagerload_falsy_conf_disables_witness :
    ConfVal.truthy (.bool false) = false
    ∧ expandServiceMap trivEnv ([] ++ ("svc", ConfVal.bool false) :: [])
        = expandServiceMap trivEnv ([] ++ [])
    ∧ expandServiceMap trivEnv [("svc", ConfVal.bool false)] = .ok [] := by
  have h := eagerload_falsy_conf_disables trivEnv [] [] "svc" (.bool false) rfl
  exact ⟨rfl, h.1, h.2.1⟩

/-! ## Resolver pass lemmas and claims C1, C3, C4 -/

/-- When every declaration of a batch fails non-fatally against a state, the
pass leaves the state unchanged, re-queues every declaration in order, and
collects exactly one error per declaration. -/
theorem eagerPass_all_fail (env : Env α) (s : LocState α) :
    ∀ (configs queued : List Svc) (errs : List LocError),
      (∀ c ∈ configs, registryHas s c.name = false ∧
        ∃ e, attemptSvc env s c = .error e ∧ e.code ≠ "E_LOCATOR_SERVICE_UNRESOLVABLE") →
      ∃ tail, eagerPass env configs s queued errs = ⟨s, queued ++ configs, errs ++ tail, none⟩
        ∧ tail.length = configs.length
  | [], queued, errs, _ => ⟨[], by simp [eagerPass], rfl⟩
  | c :: rest, queued, errs, h => by
    obtain ⟨hhas, e, he, hne⟩ := h c (List.mem_cons_self c rest)
    obtain ⟨tail, heq, hlen⟩ := eagerPass_all_fail env s rest (queued ++ [c]) (errs ++ [e])
      (fun c2 hc2 => h c2 (List.mem_cons_of_mem c hc2))
    refine ⟨e :: tail, ?_, by simp [hlen]⟩
    simp only [eagerPass, hhas, Bool.false_eq_true, if_false, he]
    rw [if_neg hne, heq]
    simp

/-- C3: when every declaration of a non-empty batch is permanently
unresolvable (each one fails non-fatally against the current state), the
first pass makes zero progress and the whole call throws
`E_LOCATOR_EAGERLOAD` carrying exactly one collected error per declaration,
with the state unchanged. -/
theorem eagerload_all_fail_throws (env : Env α) (s : LocState α) (configs : List Svc)
    (hcne : configs ≠ [])
    (h : ∀ c ∈ configs, registryHas s c.name = false ∧
      ∃ e, attemptSvc env s c = .error e ∧ e.code ≠ "E_LOCATOR_SERVICE_UNRESOLVABLE") :
    ∃ errs, iterateEagerload env configs s 1 = (s, some (.eagerloadWrap errs))
      ∧ errs.length = configs.length := by
  obtain ⟨tail, heq, hlen⟩ := eagerPass_all_fail env s configs [] [] h
  refine ⟨tail, ?_, hlen⟩
  have h1 : iterateEagerload env configs s 1 = iterStep env (iterAux env 999) configs s 1 := rfl
  rw [h1]
  simp only [iterStep, heq, List.nil_append]
  rw [if_pos ⟨by rw [hlen]; exact fun h0 => hcne (List.length_eq_zero.mp h0), hlen⟩]

/-- C4: when a declaration's attempt throws, an
`E_LOCATOR_SERVICE_UNRESOLVABLE` error ends the pass right there — the
declaration is not re-queued, no later declaration of the batch is touched
(the pass result does not depend on them), and the whole call aborts with
that very error; any other failure is caught, and the pass continues on the
remaining declarations with the failing one re-queued and its error
collected. -/
theorem eagerload_unresolvable_is_fatal (env : Env α) (s : LocState α) (c : Svc)
    (reason : LocError) (hhas : registryHas s c.name = false)
    (hatt : attemptSvc env s c = .error reason) :
    (reason.code = "E_LOCATOR_SERVICE_UNRESOLVABLE" →
      (∀ rest queued errs,
        eagerPass env (c :: rest) s queued errs = ⟨s, queued, errs, some reason⟩)
      ∧ ∀ rest, iterateEagerload env (c :: rest) s 1 = (s, some reason))
    ∧ (reason.code ≠ "E_LOCATOR_SERVICE_UNRESOLVABLE" →
      ∀ rest queued errs,
        eagerPass env (c :: rest) s queued errs
          = eagerPass env rest s (queued ++ [c]) (errs ++ [reason])) := by
  constructor
  · intro hcode
    have hpass : ∀ rest queued errs,
        eagerPass env (c :: rest) s queued errs = ⟨s, queued, errs, some reason⟩ := by
      intro rest queued errs
      simp only [eagerPass, hhas, Bool.false_eq_true, if_false, hatt]
      rw [if_pos hcode]
    refine ⟨hpass, ?_⟩
    intro rest
    have h1 : iterateEagerload env (c :: rest) s 1
        = iterStep env (iterAux env 999) (c :: rest) s 1 := rfl
    rw [h1]
    simp only [iterStep, hpass]
  · intro hcode rest queued errs
    simp only [eagerPass, hhas, Bool.false_eq_true, if_false, hatt]
    rw [if_neg hcode]

/-- C1: eager-loading the batch `[B, A]` where `B` declares `uses: [A]` and
both paths resolve: the first pass re-queues `B` with an
`E_LOCATOR_SERVICE_PRIORITY` error (its dependency is not yet registered) and
registers only `A`; the call then recurses on the queued subset, and the
second pass registers `B` and records its priority entry, so the whole call
succeeds with both names registered — convergence needs that second pass. -/
theorem eagerload_dependency_order_converges (env : Env α) (nA nB pA pB : String)
    (a b : α) (hne : nA ≠ nB)
    (hrA : env.resolve pA = .ok a) (hrB : env.resolve pB = .ok b) :
    eagerPass env [⟨nB, pB, [nA]⟩, ⟨nA, pA, []⟩] emptyState [] []
      = ⟨⟨[(nA, a)], []⟩, [⟨nB, pB, [nA]⟩], [.servicePriority nB nA], none⟩
    ∧ iterateEagerload env [⟨nB, pB, [nA]⟩, ⟨nA, pA, []⟩] emptyState 1
      = (⟨[(nA, a), (nB, b)], [(nB, [nA])]⟩, none)
    ∧ registryHas (⟨[(nA, a), (nB, b)], [(nB, [nA])]⟩ : LocState α) nA = true
    ∧ registryHas (⟨[(nA, a), (nB, b)], [(nB, [nA])]⟩ : LocState α) nB = true := by
  have hpass1 : eagerPass env [⟨nB, pB, [nA]⟩, ⟨nA, pA, []⟩] emptyState [] []
      = ⟨⟨[(nA, a)], []⟩, [⟨nB, pB, [nA]⟩], [.servicePriority nB nA], none⟩ := by
    simp +decide [eagerPass, attemptSvc, resolveService, registryHas, registryFind,
      registrySet, prioritySet, emptyState, hrA, LocError.code]
  have hpass2 : eagerPass env [⟨nB, pB, [nA]⟩] ⟨[(nA, a)], []⟩ [] []
      = ⟨⟨[(nA, a), (nB, b)], [(nB, [nA])]⟩, [], [], none⟩ := by
    simp +decide [eagerPass, attemptSvc, resolveService, registryHas, registryFind,
      registrySet, prioritySet, hrB, hne]
  refine ⟨hpass1, ?_, ?_, ?_⟩
  · have h1 : iterateEagerload env [⟨nB, pB, [nA]⟩, ⟨nA, pA, []⟩] emptyState 1
        = iterStep env (iterAux env 999) [⟨nB, pB, [nA]⟩, ⟨nA, pA, []⟩] emptyState 1 := rfl
    have h2 : ∀ cs st at2, iterAux env 999 cs st at2 = iterStep env (iterAux env 998) cs st at2 :=
      fun _ _ _ => rfl
    rw [h1]
    simp only [iterStep, hpass1, h2, hpass2]
    norm_num
  · simp [registryHas, registryFind]
  · simp [registryHas, registryFind, hne]

/-- The environment used by the C1 witness: `pa` resolves to instance `1`,
`pb` to instance `2`. -/
def orderEnvW : Env Nat :=
  ⟨fun p => if p = "pa" then .ok 1 else if p = "pb" then .ok 2 else .falsy,
   fun _ p => p, fun _ => true, fun _ => false, fun _ => none, fun _ => .enoent⟩

theorem eagerload_dependency_order_converges_witness :
    ("na" : String) ≠ "nb"
    ∧ orderEnvW.resolve "pa" = .ok 1
    ∧ orderEnvW.resolve "pb" = .ok 2
    ∧ iterateEagerload orderEnvW [⟨"nb", "pb", ["na"]⟩, ⟨"na", "pa", []⟩] emptyState 1
      = (⟨[("na", 1), ("nb", 2)], [("nb", ["na"])]⟩, none) := by
  have h := eagerload_dependency_order_converges orderEnvW "na" "nb" "pa" "pb" 1 2
    (by decide) rfl rfl
  exact ⟨by decide, rfl, rfl, h.2.1⟩

/-- The environment used by the C3 and C4 witnesses: `pu` yields a falsy
resolution (hence `E_LOCATOR_SERVICE_UNRESOLVABLE`), every other path throws
an import failure with a foreign code. -/
def failEnvW : Env Nat :=
  ⟨fun p => if p = "pu" then .falsy else .err (.external "ERR_MODULE_NOT_FOUND"),
   fun _ p => p, fun _ => true, fun _ => false, fun _ => none, fun _ => .enoent⟩

theorem eagerload_all_fail_throws_witness :
    ([⟨"a", "qa", []⟩, ⟨"b", "qb", []⟩] : List Svc) ≠ []
    ∧ (∀ c ∈ ([⟨"a", "qa", []⟩, ⟨"b", "qb", []⟩] : List Svc),
        registryHas (emptyState : LocState Nat) c.name = false ∧
        ∃ e, attemptSvc failEnvW emptyState c = .error e
          ∧ e.code ≠ "E_LOCATOR_SERVICE_UNRESOLVABLE")
    ∧ ∃ errs, iterateEagerload failEnvW [⟨"a", "qa", []⟩, ⟨"b", "qb", []⟩] emptyState 1
        = (emptyState, some (.eagerloadWrap errs))
        ∧ errs.length = ([⟨"a", "qa", []⟩, ⟨"b", "qb", []⟩] : List Svc).length := by
  have hall : ∀ c ∈ ([⟨"a", "qa", []⟩, ⟨"b", "qb", []⟩] : List Svc),
      registryHas (emptyState : LocState Nat) c.name = false ∧
      ∃ e, attemptSvc failEnvW emptyState c = .error e
        ∧ e.code ≠ "E_LOCATOR_SERVICE_UNRESOLVABLE" := by
    intro c hc
    simp only [List.mem_cons, List.not_mem_nil, or_false] at hc
    rcases hc with rfl | rfl
    · exact ⟨rfl, .external "ERR_MODULE_NOT_FOUND", rfl, by decide⟩
    · exact ⟨rfl, .external "ERR_MODULE_NOT_FOUND", rfl, by decide⟩
  exact ⟨by decide, hall, eagerload_all_fail_throws failEnvW emptyState _ (by decide) hall⟩

theorem eagerload_unresolvable_is_fatal_witness :
    registryHas (emptyState : LocState Nat) "u" = false
    ∧ attemptSvc failEnvW emptyState ⟨"u", "pu", []⟩
        = .error (.serviceUnresolvable "u" "pu")
    ∧ (LocError.serviceUnresolvable "u" "pu").code = "E_LOCATOR_SERVICE_UNRESOLVABLE"
    ∧ (∀ rest queued errs,
        eagerPass failEnvW (⟨"u", "pu", []⟩ :: rest) emptyState queued errs
          = ⟨emptyState, queued, errs, some (.serviceUnresolvable "u" "pu")⟩)
    ∧ (∀ rest, iterateEagerload failEnvW (⟨"u", "pu", []⟩ :: rest) emptyState 1
        = (emptyState, some (.serviceUnresolvable "u" "pu")))
    ∧ (LocError.external "ERR_MODULE_NOT_FOUND").code ≠ "E_LOCATOR_SERVICE_UNRESOLVABLE"
    ∧ (∀ rest queued errs,
        eagerPass failEnvW (⟨"v", "pv", []⟩ :: rest) emptyState queued errs
          = eagerPass failEnvW rest emptyState (queued ++ [⟨"v", "pv", []⟩])
              (errs ++ [.external "ERR_MODULE_NOT_FOUND"])) := by
  have hu := eagerload_unresolvable_is_fatal failEnvW emptyState ⟨"u", "pu", []⟩
    (.serviceUnresolvable "u" "pu") rfl rfl
  have hv := eagerload_unresolvable_is_fatal failEnvW emptyState ⟨"v", "pv", []⟩
    (.external "ERR_MODULE_NOT_FOUND") rfl rfl
  obtain ⟨h1, h2⟩ := hu.1 rfl
  exact ⟨rfl, rfl, rfl, h1, h2, by decide, hv.2 (by decide)⟩

/-! ## Claim C6: wildcard cardinality mismatch -/

/-- The wildcard-count check precedes the walk, so a mismatched declaration
fails with `E_LOCATOR_INVALID_PATH` identically under every filesystem. -/
theorem expandServiceWildcards_mismatch (env : Env α) (svc : Svc)
    (h : (splitChar '*' svc.name.data).length ≠ (splitChar '*' svc.path.data).length) :
    expandServiceWildcards env svc = .error (.invalidPath "mismatched wildcard count") := by
  simp only [expandServiceWildcards]
  rw [if_pos h]

/-- Expansion processes the service-map entries in order: a successfully
expanded prefix contributes its declarations, and the rest of the map decides
the outcome. -/
theorem expandServiceMap_append (env : Env α) :
    ∀ (pre rest : List (String × ConfVal)) (l : List Svc),
      expandServiceMap env pre = .ok l →
      expandServiceMap env (pre ++ rest)
        = match expandServiceMap env rest with
          | .ok r => .ok (l ++ r)
          | .error e => .error e
  | [], rest, l, h => by
    simp only [expandServiceMap, Except.ok.injEq] at h
    subst h
    simp only [List.nil_append]
    cases hr : expandServiceMap env rest <;> simp
  | (n, c) :: pre, rest, l, h => by
    simp only [List.cons_append, expandServiceMap, List.append_eq] at h ⊢
    by_cases hc : c.truthy = true
    · rw [if_pos hc] at h ⊢
      split at h
      next e heq => simp at h
      next svc0 heq =>
        split at h
        next e2 heq2 => simp at h
        next produced heq2 =>
          split at h
          next e3 heq3 => simp at h
          next restProduced heq3 =>
            simp only [Except.ok.injEq] at h
            subst h
            have hIH := expandServiceMap_append env pre rest restProduced heq3
            cases hr : expandServiceMap env rest with
            | error e4 => simp [heq, heq2, hIH, hr]
            | ok r => simp [heq, heq2, hIH, hr]
    · rw [if_neg hc] at h ⊢
      rw [expandServiceMap_append env pre rest l h]

/-- C6: a declaration whose name and (normalized) path contain different
numbers of wildcard markers makes the whole `eagerload` call fail with
`E_LOCATOR_INVALID_PATH` — under every filesystem (the check precedes any
walk for that declaration) — and with the locator state returned exactly as
it was: the whole service map is expanded before any resolution, so nothing
from the call is registered. -/
theorem eagerload_wildcard_mismatch (env : Env α) (s : LocState α)
    (pre post : List (String × ConfVal)) (l : List Svc)
    (name : String) (conf : ConfVal) (svc0 : Svc)
    (hpre : expandServiceMap env pre = .ok l)
    (htr : conf.truthy = true)
    (hnorm : normalizeServiceConf name conf = .ok svc0)
    (hmis : (splitChar '*' svc0.name.data).length
      ≠ (splitChar '*' (normalizeServicePath env svc0.name svc0.path).data).length) :
    (∀ fs2, expandServiceWildcards { env with fs := fs2 }
        { svc0 with path := normalizeServicePath env svc0.name svc0.path }
      = .error (.invalidPath "mismatched wildcard count"))
    ∧ eager env s (.obj (pre ++ (name, conf) :: post))
      = (s, some (.invalidPath "mismatched wildcard count"))
    ∧ (LocError.invalidPath "mismatched wildcard count").code = "E_LOCATOR_INVALID_PATH" := by
  have hmid : expandServiceWildcards env
      { svc0 with path := normalizeServicePath env svc0.name svc0.path }
    = .error (.invalidPath "mismatched wildcard count") :=
    expandServiceWildcards_mismatch env _ hmis
  refine ⟨fun fs2 => expandServiceWildcards_mismatch _ _ hmis, ?_, rfl⟩
  have hexp : expandServiceMap env (pre ++ (name, conf) :: post)
      = .error (.invalidPath "mismatched wildcard count") := by
    rw [expandServiceMap_append env pre ((name, conf) :: post) l hpre]
    simp [expandServiceMap, htr, hnorm, hmid]
  simp only [eager, normalizeServiceMap, hexp]

/-- The declaration used by the C6 witness: the name has one wildcard, the
path two. -/
def mismatchEntry : String × ConfVal := ("n*", .str "a*b*")

theorem eagerload_wildcard_mismatch_witness :
    expandServiceMap trivEnv [] = .ok []
    ∧ ConfVal.truthy (.str "a*b*") = true
    ∧ normalizeServiceConf "n*" (.str "a*b*") = .ok ⟨"n*", "a*b*", []⟩
    ∧ (splitChar '*' ("n*" : String).data).length
        ≠ (splitChar '*' (normalizeServicePath trivEnv "n*" "a*b*").data).length
    ∧ eager trivEnv (emptyState : LocState Nat) (.obj ([] ++ mismatchEntry :: []))
      = (emptyState, some (.invalidPath "mismatched wildcard count")) := by
  have h := eagerload_wildcard_mismatch trivEnv (emptyState : LocState Nat) [] []
    [] "n*" (.str "a*b*") ⟨"n*", "a*b*", []⟩ rfl rfl rfl (by decide)
  exact ⟨rfl, rfl, rfl, by decide, h.2.1⟩

/-! ## Destroy-round lemmas and claim C2 -/

theorem locatorDelete_ok (s : LocState α) (name : String) (s1 : LocState α)
    (h : locatorDelete s name = .ok s1) :
    s1.registry = s.registry.filter (fun e => ¬ (e.1 = name))
    ∧ s1.priority = s.priority.filter (fun p => ¬ (p.1 = name))
    ∧ s.priority.find? (fun p => p.2.contains name) = none := by
  unfold locatorDelete at h
  cases hfind : s.priority.find? (fun p => p.2.contains name) with
  | some q => rw [hfind] at h; cases h
  | none =>
    rw [hfind] at h
    simp only [Except.ok.injEq] at h
    subst h
    exact ⟨rfl, rfl, rfl⟩

/-- Structural facts about the per-candidate loop of a destroy round: invoked
and removed names come from the accumulator or from the candidate list, the
removed accumulator is preserved, and priority entries only disappear when
their key is removed. -/
theorem destroyRoundGo_props (env : Env α) :
    ∀ (L : List (String × α)) (s : LocState α) (inv rem : List String)
      (errs : List LocError),
      (∀ x, x ∈ (destroyRoundGo env L s inv rem errs).invoked →
        x ∈ inv ∨ x ∈ L.map Prod.fst)
      ∧ (∀ x, x ∈ (destroyRoundGo env L s inv rem errs).removed →
        x ∈ rem ∨ x ∈ L.map Prod.fst)
      ∧ (∀ x, x ∈ rem → x ∈ (destroyRoundGo env L s inv rem errs).removed)
      ∧ (∀ p, p ∈ (destroyRoundGo env L s inv rem errs).state.priority → p ∈ s.priority)
      ∧ (∀ p, p ∈ s.priority → p.1 ∉ (destroyRoundGo env L s inv rem errs).removed →
        p ∈ (destroyRoundGo env L s inv rem errs).state.priority)
  | [], s, inv, rem, errs =>
    ⟨fun _ h => .inl h, fun _ h => .inl h, fun _ h => h, fun _ h => h, fun _ h _ => h⟩
  | (name, svc) :: rest, s, inv, rem, errs => by
    simp only [destroyRoundGo]
    split
    next e hdel =>
      exact ⟨fun _ h => .inl h, fun _ h => .inl h, fun _ h => h, fun _ h => h, fun _ h _ => h⟩
    next s1 hdel =>
      obtain ⟨hreg, hprio, _⟩ := locatorDelete_ok s name s1 hdel
      have hmem : ∀ p : String × List String,
          p ∈ s.priority → ¬ (p.1 = name) → p ∈ (priorityErase s1 name).priority := by
        intro p hp hne
        simp only [priorityErase, hprio, List.mem_filter]
        exact ⟨⟨hp, by simpa using hne⟩, by simpa using hne⟩
      have hmem2 : ∀ p : String × List String,
          p ∈ (priorityErase s1 name).priority → p ∈ s.priority := by
        intro p hp
        simp only [priorityErase, hprio, List.mem_filter] at hp
        exact hp.1.1
      have step : ∀ (inv2 : List String) (errs2 : List LocError),
          (∀ x, x ∈ inv2 → x ∈ inv ∨ x = name) →
          (∀ x, x ∈ (destroyRoundGo env rest (priorityErase s1 name) inv2
              (rem ++ [name]) errs2).invoked → x ∈ inv ∨ x ∈ name :: rest.map Prod.fst)
          ∧ (∀ x, x ∈ (destroyRoundGo env rest (priorityErase s1 name) inv2
              (rem ++ [name]) errs2).removed → x ∈ rem ∨ x ∈ name :: rest.map Prod.fst)
          ∧ (∀ x, x ∈ rem → x ∈ (destroyRoundGo env rest (priorityErase s1 name) inv2
              (rem ++ [name]) errs2).removed)
          ∧ (∀ p, p ∈ (destroyRoundGo env rest (priorityErase s1 name) inv2
              (rem ++ [name]) errs2).state.priority → p ∈ s.priority)
          ∧ (∀ p, p ∈ s.priority → p.1 ∉ (destroyRoundGo env rest (priorityErase s1 name)
              inv2 (rem ++ [name]) errs2).removed →
            p ∈ (destroyRoundGo env rest (priorityErase s1 name) inv2
              (rem ++ [name]) errs2).state.priority) := by
        intro inv2 errs2 hinv2
        obtain ⟨i1, i2, i3, i4, i5⟩ :=
          destroyRoundGo_props env rest (priorityErase s1 name) inv2 (rem ++ [name]) errs2
        refine ⟨?_, ?_, ?_, ?_, ?_⟩
        · intro x hx
          rcases i1 x hx with h1 | h1
          · rcases hinv2 x h1 with h2 | h2
            · exact .inl h2
            · exact .inr (by simp [h2])
          · exact .inr (by simp [h1])
        · intro x hx
          rcases i2 x hx with h1 | h1
          · rcases List.mem_append.mp h1 with h2 | h2
            · exact .inl h2
            · exact .inr (by simp at h2; simp [h2])
          · exact .inr (by simp [h1])
        · intro x hx
          exact i3 x (List.mem_append.mpr (.inl hx))
        · intro p hp
          exact hmem2 p (i4 p hp)
        · intro p hp hrem
          have hname : name ∈ (destroyRoundGo env rest (priorityErase s1 name) inv2
              (rem ++ [name]) errs2).removed :=
            i3 name (List.mem_append.mpr (.inr (by simp)))
          have hpne : ¬ (p.1 = name) := fun hcontra => hrem (hcontra ▸ hname)
          exact i5 p (hmem p hp hpne) hrem
      by_cases hen : env.destroyEnabled name = false
      · rw [if_pos hen]
        exact step inv errs (fun x hx => .inl hx)
      · rw [if_neg hen]
        by_cases hfn : env.hasDestroyFn svc = true
        · rw [if_pos hfn]
          exact step (inv ++ [name]) _ (fun x hx => by
            rcases List.mem_append.mp hx with h1 | h1
            · exact .inl h1
            · exact .inr (by simpa using h1))
        · rw [if_neg hfn]
          exact step inv errs (fun x hx => .inl hx)

theorem mem_priorityFlat {s : LocState α} {nB nA : String} {uses : List String}
    (hB : (nB, uses) ∈ s.priority) (hA : nA ∈ uses) :
    nA ∈ (s.priority.map Prod.snd).flatten :=
  List.mem_flatten.mpr ⟨uses, List.mem_map_of_mem Prod.snd hB, hA⟩

/-- A name still appearing in some recorded `uses` list is excluded from a
round's candidates: its destroy operation is not invoked and it is not
removed in that round. -/
theorem destroyRound_excludes (env : Env α) (s : LocState α) (nA : String)
    (h : nA ∈ (s.priority.map Prod.snd).flatten) :
    nA ∉ (destroyRound env s).invoked ∧ nA ∉ (destroyRound env s).removed := by
  simp only [destroyRound]
  obtain ⟨i1, i2, _, _, _⟩ := destroyRoundGo_props env
    (s.registry.filter fun e => ¬ ((s.priority.map Prod.snd).flatten).contains e.1)
    s [] [] []
  have hnm : nA ∉ (s.registry.filter fun e =>
      ¬ ((s.priority.map Prod.snd).flatten).contains e.1).map Prod.fst := by
    intro hx
    obtain ⟨e, he, hfst⟩ := List.mem_map.mp hx
    have hpred := (List.mem_filter.mp he).2
    rw [hfst] at hpred
    simp only [List.contains, decide_not, List.elem_iff, decide_eq_true_eq,
      Bool.not_eq_true', decide_eq_false_iff_not] at hpred
    exact hpred h
  constructor
  · intro hx
    rcases i1 nA hx with h1 | h1
    · simp at h1
    · exact hnm h1
  · intro hx
    rcases i2 nA hx with h1 | h1
    · simp at h1
    · exact hnm h1

/-- A priority entry whose key a round does not remove survives the round. -/
theorem destroyRound_priority_persists (env : Env α) (s : LocState α)
    (p : String × List String) (hp : p ∈ s.priority)
    (hrem : p.1 ∉ (destroyRound env s).removed) :
    p ∈ (destroyRound env s).state.priority := by
  simp only [destroyRound] at hrem ⊢
  exact (destroyRoundGo_props env _ s [] [] []).2.2.2.2 p hp hrem

/-- While some service's recorded `uses` lists a name, the rounds of the
destroy loop never invoke that name's destroy operation before the round that
removes the dependent: an invocation of the used name in round `i` implies
the dependent was removed in a strictly earlier round `j`. -/
theorem destroyRun_dependent_removed_first (env : Env α) (nA nB : String)
    (uses : List String) (hA : nA ∈ uses) :
    ∀ (fuel : Nat) (s : LocState α), (nB, uses) ∈ s.priority →
      ∀ i logI, (destroyRun env fuel s).logs.get? i = some logI → nA ∈ logI.invoked →
        ∃ j logJ, j < i ∧ (destroyRun env fuel s).logs.get? j = some logJ
          ∧ nB ∈ logJ.removed
  | 0, s, hB, i, logI, hget, hinv => by simp [destroyRun] at hget
  | fuel + 1, s, hB, i, logI, hget, hinv => by
    by_cases hemp : s.registry.isEmpty = true
    · simp [destroyRun, destroyStep, hemp] at hget
    · have hflat : nA ∈ (s.priority.map Prod.snd).flatten := mem_priorityFlat hB hA
      have hexcl := destroyRound_excludes env s nA hflat
      simp only [destroyRun, destroyStep] at hget ⊢
      rw [if_neg hemp] at hget ⊢
      cases hcrash : (destroyRound env s).crash with
      | some e =>
        simp only [hcrash] at hget
        cases i with
        | zero =>
          simp only [List.get?] at hget
          cases hget
          exact absurd hinv hexcl.1
        | succ i2 => simp [List.get?] at hget
      | none =>
        simp only [hcrash] at hget ⊢
        cases i with
        | zero =>
          simp only [List.get?] at hget
          cases hget
          exact absurd hinv hexcl.1
        | succ i2 =>
          simp only [List.get?] at hget
          by_cases hBrem : nB ∈ (destroyRound env s).removed
          · exact ⟨0, ⟨(destroyRound env s).invoked, (destroyRound env s).removed⟩,
              Nat.succ_pos i2, by simp [List.get?], hBrem⟩
          · have hB2 : (nB, uses) ∈ (destroyRound env s).state.priority :=
              destroyRound_priority_persists env s (nB, uses) hB hBrem
            obtain ⟨j, logJ, hj, hgetJ, hmemJ⟩ :=
              destroyRun_dependent_removed_first env nA nB uses hA fuel
                (destroyRound env s).state hB2 i2 logI hget hinv
            exact ⟨j + 1, logJ, Nat.succ_lt_succ hj, by simpa [List.get?] using hgetJ, hmemJ⟩

/-- C2: while `B`'s recorded `uses` lists `A`, `destroy()` never invokes
`A`'s destroy operation in a round earlier than the round that removes `B`
(the depended-upon name is excluded from a round's candidates while the
dependent remains); and concretely, with `A` and `B` registered, `B`
depending on `A` and `B`'s destroy operation throwing, `destroy()` drains the
whole registry and then throws `E_LOCATOR_DESTROY` whose cause is exactly the
one `E_LOCATOR_DESTROY_SERVICE` error for `B`. -/
theorem destroy_dependent_before_dependency (env : Env α) (nA nB : String)
    (uses : List String) (a b : α) (r : String)
    (hne : nA ≠ nB) (hA : nA ∈ uses)
    (henB : env.destroyEnabled nB = true)
    (hfnB : env.hasDestroyFn b = true)
    (hfailB : env.destroyFails b = some r)
    (hfailA : env.destroyFails a = none) :
    (∀ (fuel : Nat) (s : LocState α), (nB, uses) ∈ s.priority →
      ∀ i logI, (destroyRun env fuel s).logs.get? i = some logI → nA ∈ logI.invoked →
        ∃ j logJ, j < i ∧ (destroyRun env fuel s).logs.get? j = some logJ
          ∧ nB ∈ logJ.removed)
    ∧ destroyCall env 2 ⟨[(nA, a), (nB, b)], [(nB, [nA])]⟩
      = .threw (.destroyWrap [.destroyService nB r]) ⟨[], []⟩
    ∧ (LocError.destroyService nB r).code = "E_LOCATOR_DESTROY_SERVICE"
    ∧ (LocError.destroyWrap [.destroyService nB r]).code = "E_LOCATOR_DESTROY" := by
  refine ⟨fun fuel s hB i logI hget hinv =>
    destroyRun_dependent_removed_first env nA nB uses hA fuel s hB i logI hget hinv,
    ?_, rfl, rfl⟩
  have e2 : ∀ t : LocState α, destroyRun env 2 t = destroyStep env (destroyRun env 1) t :=
    fun _ => rfl
  have e1 : ∀ t : LocState α, destroyRun env 1 t = destroyStep env (destroyRun env 0) t :=
    fun _ => rfl
  by_cases h1 : env.destroyEnabled nA = false
  · simp [destroyCall, e2, e1, destroyStep, destroyRun, destroyRound, destroyRoundGo,
      locatorDelete, priorityErase, hne, hne.symm, henB, hfnB, hfailB, hfailA, h1]
  · by_cases h2 : env.hasDestroyFn a = true
    · simp [destroyCall, e2, e1, destroyStep, destroyRun, destroyRound, destroyRoundGo,
        locatorDelete, priorityErase, hne, hne.symm, henB, hfnB, hfailB, hfailA, h1, h2]
    · simp [destroyCall, e2, e1, destroyStep, destroyRun, destroyRound, destroyRoundGo,
        locatorDelete, priorityErase, hne, hne.symm, henB, hfnB, hfailB, hfailA, h1, h2]

/-- The environment used by the C2 witness: the instance `2` (registered as
`b`) exposes a destroy operation that throws `boom`; the instance `1` does
not fail. -/
def destroyEnvW : Env Nat :=
  ⟨fun _ => .falsy, fun _ p => p, fun _ => true, fun x => x == 2,
   fun x => if x = 2 then some "boom" else none, fun _ => .enoent⟩

theorem destroy_dependent_before_dependency_witness :
    ("a" : String) ≠ "b"
    ∧ ("a" : String) ∈ ["a"]
    ∧ destroyEnvW.destroyEnabled "b" = true
    ∧ destroyEnvW.hasDestroyFn 2 = true
    ∧ destroyEnvW.destroyFails 2 = some "boom"
    ∧ destroyEnvW.destroyFails 1 = none
    ∧ destroyCall destroyEnvW 2 ⟨[("a", 1), ("b", 2)], [("b", ["a"])]⟩
      = .threw (.destroyWrap [.destroyService "b" "boom"]) ⟨[], []⟩ := by
  have h := destroy_dependent_before_dependency destroyEnvW "a" "b" ["a"] 1 2 "boom"
    (by decide) (by decide) rfl rfl rfl rfl
  exact ⟨by decide, by decide, rfl, rfl, rfl, rfl, h.2.1⟩

/-! ## Claim C9: reachable states are acyclic and teardown drains

The invariant: a priority entry is recorded only when its key and all its
used names are registered, and the relation admits a strictly monotone
numeric ranking — so it is acyclic, every destroy round has a removable
candidate, and `destroy()` drains the registry. -/

/-- The dependency-safety invariant of a locator state. -/
structure Inv (s : LocState α) : Prop where
  prioDom : ∀ p : String × List String, p ∈ s.priority → p.1 ∈ s.registry.map Prod.fst
  usesDom : ∀ p : String × List String, p ∈ s.priority → ∀ u ∈ p.2,
    u ∈ s.registry.map Prod.fst
  ranked : ∃ rank : String → Nat, ∀ p : String × List String, p ∈ s.priority →
    ∀ u ∈ p.2, rank u < rank p.1

theorem inv_empty : Inv (emptyState : LocState α) :=
  ⟨fun p hp => absurd hp (List.not_mem_nil p),
   fun p hp => absurd hp (List.not_mem_nil p),
   ⟨fun _ => 0, fun p hp => absurd hp (List.not_mem_nil p)⟩⟩

theorem registryHas_iff (s : LocState α) (n : String) :
    registryHas s n = true ↔ n ∈ s.registry.map Prod.fst := by
  unfold registryHas registryFind
  rw [List.find?_isSome]
  constructor
  · rintro ⟨e, he, hp⟩
    simp only [decide_eq_true_eq] at hp
    exact hp ▸ List.mem_map_of_mem Prod.fst he
  · intro hm
    obtain ⟨e, he, hfst⟩ := List.mem_map.mp hm
    exact ⟨e, he, by simp [hfst]⟩

theorem inv_mono (s s2 : LocState α) (h : Inv s) (hp : s2.priority = s.priority)
    (hr : ∀ x, x ∈ s.registry.map Prod.fst → x ∈ s2.registry.map Prod.fst) : Inv s2 :=
  ⟨fun p hpm => hr _ (h.prioDom p (hp ▸ hpm)),
   fun p hpm u hu => hr _ (h.usesDom p (hp ▸ hpm) u hu),
   h.ranked.imp fun _rank hrank p hpm u hu => hrank p (hp ▸ hpm) u hu⟩

theorem le_foldr_max (f : String → Nat) :
    ∀ (l : List String), ∀ x ∈ l, f x ≤ (l.map f).foldr max 0
  | a :: l, x, hx => by
    rcases List.mem_cons.mp hx with rfl | hx2
    · simp only [List.map_cons, List.foldr_cons]
      exact le_max_left _ _
    · simp only [List.map_cons, List.foldr_cons]
      exact le_trans (le_foldr_max f l x hx2) (le_max_right _ _)

theorem exists_rank_max (f : String → Nat) :
    ∀ (l : List String), l ≠ [] → ∃ x ∈ l, ∀ y ∈ l, f y ≤ f x
  | [], h => absurd rfl h
  | a :: l, _ => by
    cases l with
    | nil => exact ⟨a, by simp, by simp⟩
    | cons b t =>
      obtain ⟨x, hx, hmax⟩ := exists_rank_max f (b :: t) (by simp)
      by_cases hax : f a ≤ f x
      · refine ⟨x, List.mem_cons_of_mem a hx, fun y hy => ?_⟩
        rcases List.mem_cons.mp hy with rfl | hy2
        · exact hax
        · exact hmax y hy2
      · refine ⟨a, List.mem_cons_self a _, fun y hy => ?_⟩
        rcases List.mem_cons.mp hy with rfl | hy2
        · exact le_rfl
        · exact le_trans (hmax y hy2) (le_of_not_le hax)

theorem regNames_registrySet (s : LocState α) (n : String) (a : α) (x : String)
    (hx : x ∈ s.registry.map Prod.fst) :
    x ∈ (registrySet s n a).registry.map Prod.fst := by
  unfold registrySet
  by_cases h : registryHas s n = true
  · rw [if_pos h]
    obtain ⟨e, he, hfst⟩ := List.mem_map.mp hx
    refine List.mem_map.mpr ⟨if e.1 = n then (n, a) else e, List.mem_map_of_mem _ he, ?_⟩
    by_cases he1 : e.1 = n
    · simp only [if_pos he1]
      rw [← hfst, he1]
    · simp only [if_neg he1]
      exact hfst
  · rw [if_neg h]
    simp only [List.map_append]
    exact List.mem_append.mpr (.inl hx)

theorem inv_registrySet (s : LocState α) (n : String) (a : α) (h : Inv s) :
    Inv (registrySet s n a) :=
  inv_mono s _ h (by unfold registrySet; split <;> rfl) (regNames_registrySet s n a)

/-! ### Invariant preservation by the resolver -/

theorem resolveService_ok (env : Env α) (s : LocState α) (name path : String)
    (s2 : LocState α) (h : resolveService env s name path = .ok s2) :
    ∃ a, env.resolve path = .ok a ∧ s2 = registrySet s name a := by
  unfold resolveService at h
  cases hres : env.resolve path with
  | ok a =>
    rw [hres] at h
    simp only [Except.ok.injEq] at h
    exact ⟨a, rfl, h.symm⟩
  | falsy => rw [hres] at h; cases h
  | err e => rw [hres] at h; cases h

theorem inv_attempt (env : Env α) (s : LocState α) (c : Svc) (s2 : LocState α)
    (h : Inv s) (hhas : registryHas s c.name = false)
    (hok : attemptSvc env s c = .ok s2) : Inv s2 := by
  unfold attemptSvc at hok
  cases hfind : c.uses.find? (fun u => ¬ registryHas s u) with
  | some u => rw [hfind] at hok; cases hok
  | none =>
    rw [hfind] at hok
    simp only [] at hok
    have huses : ∀ u ∈ c.uses, registryHas s u = true := by
      intro u hu
      have h2 := List.find?_eq_none.mp hfind u hu
      simpa using h2
    have hnmem : c.name ∉ s.registry.map Prod.fst := by
      intro hmem
      rw [← registryHas_iff] at hmem
      rw [hmem] at hhas
      cases hhas
    cases hres2 : resolveService env s c.name c.path with
    | error e => rw [hres2] at hok; cases hok
    | ok s3 =>
      rw [hres2] at hok
      simp only [] at hok
      obtain ⟨a, hres, rfl⟩ := resolveService_ok env s c.name c.path s3 hres2
      by_cases hlen : c.uses.length ≠ 0
      · rw [if_pos hlen] at hok
        simp only [Except.ok.injEq] at hok
        subst hok
        have hpr : (registrySet s c.name a).priority = s.priority := by
          unfold registrySet; split <;> rfl
        have hany : (registrySet s c.name a).priority.any (fun p => p.1 = c.name) = false := by
          rw [hpr]
          rw [List.any_eq_false]
          intro p hp
          simp only [decide_eq_true_eq]
          intro hcontra
          exact hnmem (hcontra ▸ h.prioDom p hp)
        have hset : prioritySet (registrySet s c.name a) c.name c.uses
            = { registrySet s c.name a with
                priority := (registrySet s c.name a).priority ++ [(c.name, c.uses)] } := by
          unfold prioritySet
          rw [if_neg (by rw [hany]; exact Bool.false_ne_true)]
        rw [hset]
        have hnames : ∀ x, x ∈ s.registry.map Prod.fst →
            x ∈ (registrySet s c.name a).registry.map Prod.fst :=
          regNames_registrySet s c.name a
        have hself : c.name ∈ (registrySet s c.name a).registry.map Prod.fst := by
          rw [← registryHas_iff]
          exact registryHas_set_self s c.name a hhas
        obtain ⟨rank, hrank⟩ := h.ranked
        refine ⟨?_, ?_, ?_⟩
        · intro p hp
          have hp2 : p ∈ s.priority ∨ p = (c.name, c.uses) := by simpa [hpr] using hp
          rcases hp2 with h1 | h1
          · exact hnames _ (h.prioDom p h1)
          · rw [h1]
            exact hself
        · intro p hp u hu
          have hp2 : p ∈ s.priority ∨ p = (c.name, c.uses) := by simpa [hpr] using hp
          rcases hp2 with h1 | h1
          · exact hnames _ (h.usesDom p h1 u hu)
          · have h2 : u ∈ c.uses := by rw [h1] at hu; exact hu
            exact hnames _ ((registryHas_iff s u).mp (huses u h2))
        · refine ⟨fun x => if x = c.name then (c.uses.map rank).foldr max 0 + 1 else rank x,
            ?_⟩
          intro p hp u hu
          have hregu : ∀ v, v ∈ s.registry.map Prod.fst → v ≠ c.name :=
            fun v hv hcontra => hnmem (hcontra ▸ hv)
          have hp2 : p ∈ s.priority ∨ p = (c.name, c.uses) := by simpa [hpr] using hp
          rcases hp2 with h1 | h1
          · have hp1 : ¬ (p.1 = c.name) := hregu _ (h.prioDom p h1)
            have hu1 : ¬ (u = c.name) := hregu _ (h.usesDom p h1 u hu)
            simp only []
            rw [if_neg hp1, if_neg hu1]
            exact hrank p h1 u hu
          · subst h1
            have h2 : u ∈ c.uses := hu
            have hu1 : ¬ (u = c.name) :=
              hregu _ ((registryHas_iff s u).mp (huses u h2))
            simp only [if_neg hu1]
            simp only [if_pos]
            exact Nat.lt_succ_of_le (le_foldr_max rank c.uses u h2)
      · rw [if_neg hlen] at hok
        simp only [Except.ok.injEq] at hok
        subst hok
        exact inv_registrySet s c.name a h

theorem inv_eagerPass (env : Env α) :
    ∀ (configs : List Svc) (s : LocState α) (q : List Svc) (errs : List LocError),
      Inv s → Inv (eagerPass env configs s q errs).state
  | [], _, _, _, h => h
  | c :: rest, s, q, errs, h => by
    by_cases hhas : registryHas s c.name = true
    · simp only [eagerPass, hhas, if_true]
      exact inv_eagerPass env rest s q errs h
    · have hhas2 : registryHas s c.name = false := by simpa using hhas
      cases hatt : attemptSvc env s c with
      | ok s2 =>
        simp only [eagerPass, hhas2, Bool.false_eq_true, if_false, hatt]
        exact inv_eagerPass env rest s2 q errs (inv_attempt env s c s2 h hhas2 hatt)
      | error reason =>
        simp only [eagerPass, hhas2, Bool.false_eq_true, if_false, hatt]
        by_cases hcode : reason.code = "E_LOCATOR_SERVICE_UNRESOLVABLE"
        · rw [if_pos hcode]
          exact h
        · rw [if_neg hcode]
          exact inv_eagerPass env rest s (q ++ [c]) (errs ++ [reason]) h

theorem inv_iterAux (env : Env α) :
    ∀ (fuel : Nat) (configs : List Svc) (s : LocState α) (attempt : Nat),
      Inv s → Inv (iterAux env fuel configs s attempt).1
  | 0, _, _, _, h => h
  | fuel + 1, configs, s, attempt, h => by
    simp only [iterAux, iterStep]
    split
    next e heq => exact inv_eagerPass env configs s [] [] h
    next heq =>
      split
      · exact inv_eagerPass env configs s [] [] h
      · split
        · exact inv_eagerPass env configs s [] [] h
        · split
          · exact inv_iterAux env fuel _ _ _ (inv_eagerPass env configs s [] [] h)
          · exact inv_eagerPass env configs s [] [] h

/-! ### Invariant preservation by deletion and teardown -/

theorem inv_locatorDelete_ok (s : LocState α) (name : String) (s1 : LocState α)
    (h : Inv s) (hdel : locatorDelete s name = .ok s1) : Inv s1 := by
  obtain ⟨hreg, hprio, hfind⟩ := locatorDelete_ok s name s1 hdel
  have hguard : ∀ p : String × List String, p ∈ s.priority → name ∉ p.2 := by
    intro p hp hmem
    have h2 := List.find?_eq_none.mp hfind p hp
    simp only [List.contains, List.elem_iff, Bool.not_eq_true] at h2
    exact h2 hmem
  have hnames : ∀ x, x ∈ s.registry.map Prod.fst → x ≠ name →
      x ∈ s1.registry.map Prod.fst := by
    intro x hx hne
    obtain ⟨e, he, hfst⟩ := List.mem_map.mp hx
    refine List.mem_map.mpr ⟨e, ?_, hfst⟩
    rw [hreg]
    exact List.mem_filter.mpr ⟨he, by simp [hfst, hne]⟩
  have hsub : ∀ p : String × List String, p ∈ s1.priority →
      p ∈ s.priority ∧ ¬ (p.1 = name) := by
    intro p hp
    rw [hprio] at hp
    have h2 := List.mem_filter.mp hp
    exact ⟨h2.1, by simpa using h2.2⟩
  refine ⟨?_, ?_, ?_⟩
  · intro p hp
    obtain ⟨hmem, hne⟩ := hsub p hp
    exact hnames _ (h.prioDom p hmem) hne
  · intro p hp u hu
    obtain ⟨hmem, _⟩ := hsub p hp
    have hune : u ≠ name := fun hcontra => hguard p hmem (hcontra ▸ hu)
    exact hnames _ (h.usesDom p hmem u hu) hune
  · exact h.ranked.imp fun rank hrank p hp u hu => hrank p (hsub p hp).1 u hu

theorem inv_priorityErase (s : LocState α) (name : String) (h : Inv s) :
    Inv (priorityErase s name) := by
  have hsub : ∀ p : String × List String, p ∈ (priorityErase s name).priority →
      p ∈ s.priority := by
    intro p hp
    simp only [priorityErase, List.mem_filter] at hp
    exact hp.1
  exact ⟨fun p hp => h.prioDom p (hsub p hp),
    fun p hp u hu => h.usesDom p (hsub p hp) u hu,
    h.ranked.imp fun rank hrank p hp u hu => hrank p (hsub p hp) u hu⟩

theorem inv_destroyRoundGo (env : Env α) :
    ∀ (L : List (String × α)) (s : LocState α) (inv rem : List String)
      (errs : List LocError), Inv s → Inv (destroyRoundGo env L s inv rem errs).state
  | [], _, _, _, _, h => h
  | (name, svc) :: rest, s, inv, rem, errs, h => by
    simp only [destroyRoundGo]
    split
    next e hdel => exact h
    next s1 hdel =>
      have h1 : Inv (priorityErase s1 name) :=
        inv_priorityErase s1 name (inv_locatorDelete_ok s name s1 h hdel)
      by_cases hen : env.destroyEnabled name = false
      · rw [if_pos hen]
        exact inv_destroyRoundGo env rest _ _ _ _ h1
      · rw [if_neg hen]
        by_cases hfn : env.hasDestroyFn svc = true
        · rw [if_pos hfn]
          exact inv_destroyRoundGo env rest _ _ _ _ h1
        · rw [if_neg hfn]
          exact inv_destroyRoundGo env rest _ _ _ _ h1

theorem inv_destroyRound (env : Env α) (s : LocState α) (h : Inv s) :
    Inv (destroyRound env s).state := by
  simp only [destroyRound]
  exact inv_destroyRoundGo env _ s [] [] [] h

theorem inv_destroyRun (env : Env α) :
    ∀ (fuel : Nat) (s : LocState α), Inv s → Inv (destroyRun env fuel s).state
  | 0, _, h => h
  | fuel + 1, s, h => by
    simp only [destroyRun, destroyStep]
    split
    · exact h
    · split
      next e heq => exact inv_destroyRound env s h
      next heq => exact inv_destroyRun env fuel _ (inv_destroyRound env s h)

theorem inv_applyOp (env : Env α) (s : LocState α) (op : Op) (h : Inv s) :
    Inv (applyOp env s op) := by
  cases op with
  | locateOp _ => exact h
  | lazyloadOp name path =>
    simp only [applyOp]
    split
    next s2 r heq =>
      unfold lazy at heq
      by_cases hhas : registryHas s name = true
      · rw [if_pos hhas] at heq
        simp only [Except.ok.injEq, Prod.mk.injEq] at heq
        exact heq.1 ▸ h
      · rw [if_neg hhas] at heq
        cases hres2 : resolveService env s name (path.getD name) with
        | ok s3 =>
          rw [hres2] at heq
          simp only [Except.ok.injEq, Prod.mk.injEq] at heq
          obtain ⟨a, hres, rfl⟩ := resolveService_ok env s name _ s3 hres2
          exact heq.1 ▸ inv_registrySet s name a h
        | error reason => rw [hres2] at heq; cases heq
    next heq => exact h
  | eagerloadOp configs =>
    simp only [applyOp, iterateEagerload]
    exact inv_iterAux env _ configs s 1 h
  | deleteOp name =>
    simp only [applyOp, deleteOp]
    split
    next s2 heq => exact inv_locatorDelete_ok s name s2 h heq
    next e heq => exact h
  | destroyOp fuel =>
    simp only [applyOp]
    exact inv_destroyRun env fuel s h

theorem inv_runOps (env : Env α) :
    ∀ (ops : List Op) (s : LocState α), Inv s → Inv (runOps env ops s)
  | [], _, h => h
  | op :: ops, s, h => inv_runOps env ops _ (inv_applyOp env s op h)

/-! ### Every destroy round makes progress and the registry drains -/

/-- When no candidate's name appears in any recorded `uses` list, the
per-candidate loop never hits the deletion guard, never grows the registry,
and strictly shrinks it whenever some candidate is actually registered. -/
theorem go_progress (env : Env α) :
    ∀ (L : List (String × α)) (s : LocState α) (inv rem : List String)
      (errs : List LocError),
      (∀ x ∈ L.map Prod.fst, ∀ p : String × List String, p ∈ s.priority → x ∉ p.2) →
      (destroyRoundGo env L s inv rem errs).crash = none
      ∧ (destroyRoundGo env L s inv rem errs).state.registry.length ≤ s.registry.length
      ∧ ((∃ x ∈ L.map Prod.fst, x ∈ s.registry.map Prod.fst) →
        (destroyRoundGo env L s inv rem errs).state.registry.length < s.registry.length)
  | [], s, inv, rem, errs, hpre =>
    ⟨rfl, le_rfl, by rintro ⟨x, hx, _⟩; simp at hx⟩
  | (name, svc) :: rest, s, inv, rem, errs, hpre => by
    have hfind : s.priority.find? (fun p => p.2.contains name) = none := by
      apply List.find?_eq_none.mpr
      intro p hp
      have hnot := hpre name (by simp) p hp
      simpa [List.contains, List.elem_iff] using hnot
    have hdel : locatorDelete s name
        = .ok ⟨s.registry.filter (fun e => ¬ (e.1 = name)),
               s.priority.filter (fun p => ¬ (p.1 = name))⟩ := by
      unfold locatorDelete
      rw [hfind]
    simp only [destroyRoundGo, hdel]
    set s2 := priorityErase ⟨s.registry.filter (fun e => ¬ (e.1 = name)),
        s.priority.filter (fun p => ¬ (p.1 = name))⟩ name with hs2
    have hpre2 : ∀ x ∈ rest.map Prod.fst, ∀ p : String × List String,
        p ∈ s2.priority → x ∉ p.2 := by
      intro x hx p hp
      apply hpre x (by simp [hx])
      have hp2 := hp
      simp only [hs2, priorityErase, List.mem_filter] at hp2
      exact hp2.1.1
    have hlen2 : s2.registry.length ≤ s.registry.length := by
      simp only [hs2, priorityErase]
      exact List.length_filter_le _ _
    have hstrict : name ∈ s.registry.map Prod.fst →
        s2.registry.length < s.registry.length := by
      intro hmem
      obtain ⟨e, he, hfst⟩ := List.mem_map.mp hmem
      simp only [hs2, priorityErase]
      rw [List.length_filter_lt_length_iff_exists]
      exact ⟨e, he, by simp [hfst]⟩
    have main : ∀ (inv2 : List String) (errs2 : List LocError),
        (destroyRoundGo env rest s2 inv2 (rem ++ [name]) errs2).crash = none
        ∧ (destroyRoundGo env rest s2 inv2 (rem ++ [name]) errs2).state.registry.length
            ≤ s.registry.length
        ∧ ((∃ x ∈ name :: rest.map Prod.fst, x ∈ s.registry.map Prod.fst) →
          (destroyRoundGo env rest s2 inv2 (rem ++ [name]) errs2).state.registry.length
            < s.registry.length) := by
      intro inv2 errs2
      obtain ⟨g1, g2, g3⟩ := go_progress env rest s2 inv2 (rem ++ [name]) errs2 hpre2
      refine ⟨g1, le_trans g2 hlen2, ?_⟩
      rintro ⟨x, hx, hxr⟩
      rcases List.mem_cons.mp hx with rfl | hx2
      · exact lt_of_le_of_lt g2 (hstrict hxr)
      · by_cases hxname : x = name
        · subst hxname
          exact lt_of_le_of_lt g2 (hstrict hxr)
        · have hxr2 : x ∈ s2.registry.map Prod.fst := by
            obtain ⟨e, he, hfst⟩ := List.mem_map.mp hxr
            refine List.mem_map.mpr ⟨e, ?_, hfst⟩
            simp only [hs2, priorityErase]
            exact List.mem_filter.mpr ⟨he, by simp [hfst, hxname]⟩
          exact lt_of_lt_of_le (g3 ⟨x, hx2, hxr2⟩) hlen2
    by_cases hen : env.destroyEnabled name = false
    · rw [if_pos hen]
      exact main inv errs
    · rw [if_neg hen]
      by_cases hfn : env.hasDestroyFn svc = true
      · rw [if_pos hfn]
        exact main (inv ++ [name]) _
      · rw [if_neg hfn]
        exact main inv errs

/-- Under the invariant, a round of `destroy()` on a non-empty registry never
crashes and strictly shrinks the registry: the registered name of maximal
rank is in no recorded `uses` list, so the candidate set is non-empty. -/
theorem destroyRound_progress (env : Env α) (s : LocState α) (h : Inv s)
    (hne : s.registry ≠ []) :
    (destroyRound env s).crash = none
    ∧ (destroyRound env s).state.registry.length < s.registry.length := by
  simp only [destroyRound]
  have hpre : ∀ x ∈ (s.registry.filter fun e =>
      ¬ ((s.priority.map Prod.snd).flatten).contains e.1).map Prod.fst,
      ∀ p : String × List String, p ∈ s.priority → x ∉ p.2 := by
    intro x hx p hp hmem
    obtain ⟨e, he, hfst⟩ := List.mem_map.mp hx
    have hpred := (List.mem_filter.mp he).2
    rw [hfst] at hpred
    simp only [List.contains, decide_not, List.elem_iff, decide_eq_true_eq,
      Bool.not_eq_true', decide_eq_false_iff_not] at hpred
    exact hpred (mem_priorityFlat hp hmem)
  obtain ⟨g1, g2, g3⟩ := go_progress env _ s [] [] [] hpre
  refine ⟨g1, ?_⟩
  obtain ⟨rank, hrank⟩ := h.ranked
  have hnames : s.registry.map Prod.fst ≠ [] := by
    cases hsr : s.registry with
    | nil => exact absurd hsr hne
    | cons e t => simp
  obtain ⟨x, hx, hmax⟩ := exists_rank_max rank (s.registry.map Prod.fst) hnames
  have hxnot : x ∉ (s.priority.map Prod.snd).flatten := by
    intro hmemf
    obtain ⟨us, hus, hxus⟩ := List.mem_flatten.mp hmemf
    obtain ⟨p, hpm, hsnd⟩ := List.mem_map.mp hus
    have h1 : rank x < rank p.1 := hrank p hpm x (hsnd ▸ hxus)
    have h2 : rank p.1 ≤ rank x := hmax p.1 (h.prioDom p hpm)
    exact absurd h1 (not_lt.mpr h2)
  obtain ⟨e, he, hfst⟩ := List.mem_map.mp hx
  have hxf : x ∈ (s.registry.filter fun e2 =>
      ¬ ((s.priority.map Prod.snd).flatten).contains e2.1).map Prod.fst := by
    refine List.mem_map.mpr ⟨e, List.mem_filter.mpr ⟨he, ?_⟩, hfst⟩
    simp [hfst, List.contains, List.elem_iff, hxnot]
  exact g3 ⟨x, hxf, hx⟩

/-- Under the invariant, the destroy loop with fuel at least the registry
size ends with the registry drained. -/
theorem destroyRun_drains (env : Env α) :
    ∀ (fuel : Nat) (s : LocState α), Inv s → s.registry.length ≤ fuel →
      (destroyRun env fuel s).progress = .drained
      ∧ (destroyRun env fuel s).state.registry = []
  | 0, s, _, hlen => by
    have hr : s.registry = [] := List.length_eq_zero.mp (Nat.le_zero.mp hlen)
    simp [destroyRun, hr]
  | fuel + 1, s, h, hlen => by
    simp only [destroyRun, destroyStep]
    by_cases hemp : s.registry.isEmpty = true
    · rw [if_pos hemp]
      exact ⟨rfl, List.isEmpty_iff.mp hemp⟩
    · rw [if_neg hemp]
      have hne : s.registry ≠ [] := by
        intro hcontra
        rw [hcontra] at hemp
        exact hemp rfl
      obtain ⟨hcrash, hlt⟩ := destroyRound_progress env s h hne
      simp only [hcrash]
      exact destroyRun_drains env fuel (destroyRound env s).state
        (inv_destroyRound env s h) (Nat.lt_succ_iff.mp (lt_of_lt_of_le hlt hlen))

/-- C9: in every state reachable from the empty locator through the public
operations, the dependency-safety invariant holds; the recorded priority
relation admits a strictly monotone ranking, hence is acyclic; under the
invariant every destroy round on a non-empty registry finds at least one
removable candidate (no crash, registry strictly shrinks); and consequently
`destroy()` with fuel the registry size terminates with the registry
drained. -/
theorem reachable_states_acyclic_and_destroy_drains (env : Env α) (ops : List Op) :
    Inv (runOps env ops emptyState)
    ∧ (∃ rank : String → Nat, ∀ p : String × List String,
        p ∈ (runOps env ops emptyState).priority → ∀ u ∈ p.2, rank u < rank p.1)
    ∧ (∀ s2 : LocState α, Inv s2 → s2.registry ≠ [] →
        (destroyRound env s2).crash = none
        ∧ (destroyRound env s2).state.registry.length < s2.registry.length)
    ∧ (destroyRun env (runOps env ops emptyState).registry.length
        (runOps env ops emptyState)).progress = .drained
    ∧ (destroyRun env (runOps env ops emptyState).registry.length
        (runOps env ops emptyState)).state.registry = [] := by
  have hinv := inv_runOps env ops emptyState inv_empty
  obtain ⟨d1, d2⟩ := destroyRun_drains env _ _ hinv le_rfl
  exact ⟨hinv, hinv.ranked,
    fun s2 h2 hne => destroyRound_progress env s2 h2 hne, d1, d2⟩

/-! ## Claim C7: the wildcard-expansion example -/

/-- The directory listing of the specification's example: `./services/`
contains the file entries `a.js`, `b.js` and `b.test.js`. -/
def svcExampleFs : List Char → FsResult := fun p =>
  if p = "./services/".data then
    .ok [⟨"a.js".data, .file⟩, ⟨"b.js".data, .file⟩, ⟨"b.test.js".data, .file⟩]
  else
    .enoent

/-- An environment whose filesystem is `svcExampleFs`; the other collaborators
are irrelevant to expansion. -/
def svcExampleEnv : Env Nat :=
  ⟨fun _ => .falsy, fun _ p => p, fun _ => true, fun _ => false, fun _ => none, svcExampleFs⟩

/-- C7: expanding the declaration `svc/* → ./services/*.js` against a
directory with file entries `a.js`, `b.js` and `b.test.js` produces exactly
`svc/a → ./services/a.js` and `svc/b → ./services/b.js`; `b.test.js` is
silently excluded by the file-acceptance predicate even though it ends with
the pattern's literal trailing suffix `.js`. -/
theorem eagerload_wildcard_example :
    expandServiceWildcards svcExampleEnv ⟨"svc/*", "./services/*.js", []⟩ =
      .ok [⟨"svc/a", "./services/a.js", []⟩, ⟨"svc/b", "./services/b.js", []⟩]
    ∧ isInvalidFile "b.test.js".data ".js".data = true
    ∧ List.isSuffixOf ".js".data "b.test.js".data = true :=
  ⟨rfl, rfl, by decide⟩

end SuperheroLocator
